import Mathlib

/-!
Shallow embedding of `mr01.py` (MR01 probabilistic micropayments): the
`Transaction` check, its payable-amount evaluation, and the `Bank` state
machine (deposit, payment validation/processing, double-spend reporting).

Python integers are modelled as `Int`; dictionaries as insertion-ordered
association lists with Python `dict` semantics (update in place, append on
new key); raised exceptions as `Except` results; the external VRF (the
`vrf` module) as an oracle giving the result of `Transaction.evaluate`.
-/

namespace MR01

/-- Public keys cross the API as hex strings (`mr01.py` compares them with
string equality). -/
abbrev Key := String

/-- Signature/proof bytes are opaque to the bank logic; only passed around
and stored. Modelled as an abstract token. -/
abbrev Sig := Nat

/-- The module constant `MP = 10`: how many coins is considered a macro
payment. -/
def MP : Int := 10

/-- The exceptions `mr01.py` defines, plus the failure of the external
`vrf.vrf_fullverify` call (an invalid signature), which propagates out of
`Transaction.evaluate`. -/
inductive Err where
  | invalidSignature
  | notPayable
  | unknownSender
  | alreadyProcessed
  | doubleSpend
  | invalidCoinInterval
  | notEnoughFunds
deriving DecidableEq

/-- A check. `timestamp` is stored as `str(int(timestamp))` in Python; on
integer timestamps that string round-trip is injective, so the field is kept
as the integer. Python `__eq__` compares all five fields componentwise,
matching the derived equality. -/
structure Transaction where
  sn : Int
  amount : Int
  sender_key : Key
  receiver_key : Key
  timestamp : Int
deriving DecidableEq

/-- Construction (`Transaction.__init__`): the asserts `sn > 0`,
`amount > 0`, `sn >= amount` make construction fail unless all three hold. -/
def Transaction.init (sn amount : Int) (sender_key receiver_key : Key)
    (timestamp : Int) : Option Transaction :=
  if 0 < sn ∧ 0 < amount ∧ amount ≤ sn then
    some ⟨sn, amount, sender_key, receiver_key, timestamp⟩
  else none

/-- The constructor's invariants, as a predicate on the record. -/
def Transaction.valid (t : Transaction) : Prop :=
  0 < t.sn ∧ 0 < t.amount ∧ t.amount ≤ t.sn

instance (t : Transaction) : Decidable t.valid := by
  unfold Transaction.valid
  exact inferInstance

/-- Exact integer value of the Python float expression
`(2**512) * (r / float(10))` for `r` in `[0, 10)` (the possible values of
`amount % MP`). Python computes `r / 10.0` as the IEEE-754 binary64 value
nearest to `r/10` (for example `1/10` rounds to `3602879701896397 / 2^55`);
multiplying that dyadic value by `2^512` is exact in binary64, so the
target is an integer, and Python's mixed `int < float` comparison compares
the exact values. The `r = 0` and `r = 5` rows are exactly `r * 2^512 / 10`;
every other row differs from it. Values of `r` outside `[0, 10)` cannot
arise from `amount % MP`; the final arm is dead. -/
def difficulty_target (r : Int) : Int :=
  if r = 0 then 0
  else if r = 1 then 3602879701896397 * 2 ^ 457
  else if r = 2 then 3602879701896397 * 2 ^ 458
  else if r = 3 then 5404319552844595 * 2 ^ 458
  else if r = 4 then 3602879701896397 * 2 ^ 459
  else if r = 5 then 2 ^ 511
  else if r = 6 then 5404319552844595 * 2 ^ 459
  else if r = 7 then 3152519739159347 * 2 ^ 460
  else if r = 8 then 3602879701896397 * 2 ^ 460
  else if r = 9 then 8106479329266893 * 2 ^ 459
  else 0

/-- `Transaction.calculate_payment(MP, amount, attempt_hex)` with the module
constant `MP = 10` inlined (the only value the program ever passes: `evaluate`
forwards the module-level `MP`). `X` is `int(attempt_hex, 16)`. Python `//`
is floor division (`Int.fdiv`) and `%` with a positive modulus yields the
representative in `[0, 10)` (`Int.emod`). The float computation
`(2**512) * (remaining_amount / float(MP))` evaluates exactly to
`difficulty_target remaining_amount`. -/
def calculate_payment (amount : Int) (X : Int) : Int :=
  let amount_paid := Int.fdiv amount MP * MP
  let remaining_amount := Int.emod amount MP
  if X < difficulty_target remaining_amount then amount_paid + MP
  else amount_paid

/-- The payable amount as the spec words it (threshold `rem * 2^L / M`
computed exactly, strict `<`): the comparison `X < rem * 2^512 / 10` is
stated integrally as `X * 10 < rem * 2^512`. Written to be compared with
`calculate_payment`, the definition taken from the source. -/
def spec_calculate_payment (amount : Int) (X : Int) : Int :=
  let full := Int.fdiv amount MP * MP
  let rem := Int.emod amount MP
  if X * MP < rem * 2 ^ 512 then full + MP else full

/-- One stored history entry: `(tx, sender_sig, receiver_sig)`. -/
structure HistEntry where
  tx : Transaction
  sender_sig : Sig
  receiver_sig : Sig
deriving DecidableEq

/-- One value of the `users` dictionary. `history` maps `sn` to an entry;
Python dicts keep insertion order, so it is an ordered association list. -/
structure UserRecord where
  total_received : Int
  balance : Int
  history : List (Int × HistEntry)
deriving DecidableEq

/-- The record `ensure_user_exists` creates. -/
def UserRecord.new : UserRecord :=
  { total_received := 0, balance := 0, history := [] }

/-- The bank state: the `users` dictionary. -/
structure Bank where
  users : List (Key × UserRecord)
deriving DecidableEq

/-- Python `d[k]` / `k in d` on an association list. -/
def dictFind {α β : Type} [DecidableEq α] : List (α × β) → α → Option β
  | [], _ => none
  | (a, b) :: rest, k => if a = k then some b else dictFind rest k

/-- Python `d[k] = v`: replace in place when the key is present, append
otherwise. -/
def dictInsert {α β : Type} [DecidableEq α] : List (α × β) → α → β → List (α × β)
  | [], k, v => [(k, v)]
  | (a, b) :: rest, k, v =>
      if a = k then (a, v) :: rest else (a, b) :: dictInsert rest k v

/-- `Bank.__init__`: an empty `users` dictionary. -/
def Bank.init : Bank := ⟨[]⟩

/-- `Bank.user_balance`: `0` for an unknown key, else the record's balance. -/
def Bank.user_balance (b : Bank) (user_key : Key) : Int :=
  match dictFind b.users user_key with
  | none => 0
  | some u => u.balance

/-- `Bank.ensure_user_exists`: create a fresh zeroed record on first use. -/
def Bank.ensure_user_exists (b : Bank) (user_key : Key) : Bank :=
  match dictFind b.users user_key with
  | some _ => b
  | none => ⟨dictInsert b.users user_key UserRecord.new⟩

/-- `Bank.intersection_exists`: the source builds the closed intervals
`[sn - amount + 1, sn]`, orders them by lower bound and tests
`fst[0] <= snd[0] <= fst[1]`. -/
def Bank.intersection_exists (tx1 tx2 : Transaction) : Bool :=
  let interval1 := (tx1.sn - tx1.amount + 1, tx1.sn)
  let interval2 := (tx2.sn - tx2.amount + 1, tx2.sn)
  let fs := if interval1.1 ≤ interval2.1 then (interval1, interval2)
            else (interval2, interval1)
  decide (fs.1.1 ≤ fs.2.1 ∧ fs.2.1 ≤ fs.1.2)

/-- The loop of `Bank.find_shared_sn_subrange` over the sender's history
values (in insertion order): the first stored transaction intersecting `tx`,
else `None`. -/
def findSharedHist (hist : List (Int × HistEntry)) (tx : Transaction) :
    Option Transaction :=
  match hist with
  | [] => none
  | (_, e) :: rest =>
      if Bank.intersection_exists tx e.tx then some e.tx
      else findSharedHist rest tx

/-- `Bank.find_shared_sn_subrange`. In the source `self.users[tx.sender_key]`
raises `KeyError` on an unknown sender; the method is only called after the
`UnknownSender` check, so that path is unreachable and is modelled as no
match found. -/
def Bank.find_shared_sn_subrange (b : Bank) (tx : Transaction) :
    Option Transaction :=
  match dictFind b.users tx.sender_key with
  | none => none
  | some u => findSharedHist u.history tx

/-- `Bank.subtract_balance`: debit the sender and store the check under key
`tx.sn`. The source indexes `self.users[tx.sender_key]` directly (`KeyError`
on an unknown sender); `process_payment` only calls it after
`validate_payment` confirmed the sender exists, so the `none` arm is
unreachable and keeps the state. -/
def Bank.subtract_balance (b : Bank) (tx : Transaction) (amount_paid : Int)
    (sender_sig receiver_sig : Sig) : Bank :=
  match dictFind b.users tx.sender_key with
  | none => b
  | some u =>
      ⟨dictInsert b.users tx.sender_key
        { u with
          balance := u.balance - amount_paid,
          history := dictInsert u.history tx.sn ⟨tx, sender_sig, receiver_sig⟩ }⟩

/-- `Bank.add_balance`: ensure the record exists, then credit both `balance`
and `total_received`. After `ensure_user_exists` the key is present, so the
`none` arm is unreachable. -/
def Bank.add_balance (b : Bank) (user_key : Key) (amount : Int) : Bank :=
  let b1 := b.ensure_user_exists user_key
  match dictFind b1.users user_key with
  | none => b1
  | some u =>
      ⟨dictInsert b1.users user_key
        { u with
          balance := u.balance + amount,
          total_received := u.total_received + amount }⟩

/-- `Bank.deposit`: just `add_balance` — the source performs no check on
`amount` whatsoever. -/
def Bank.deposit (b : Bank) (user_key : Key) (amount : Int) : Bank :=
  b.add_balance user_key amount

/-- The result of `tx.evaluate(sender_sig, receiver_sig)`. Evaluation calls
the external VRF (`vrf_fullverify`) twice and then `calculate_payment`; the
VRF is outside the repository (spec §1 treats it as a black box), so the
whole of `evaluate` is abstracted as an oracle consulted by the bank. -/
abbrev EvalOracle := Transaction → Sig → Sig → Except Err Int

/-- What the concrete `Transaction.evaluate` guarantees about an oracle at
one call site: a successful result is `calculate_payment` of the
transaction's amount at some 512-bit attempt value (the hex beta digest has
exactly 128 nibbles, asserted in the source). -/
def EvalOracle.consistent_at (ev : EvalOracle) (tx : Transaction)
    (ss rs : Sig) : Prop :=
  ∀ n, ev tx ss rs = Except.ok n →
    ∃ X : Int, 0 ≤ X ∧ X < 2 ^ 512 ∧ n = calculate_payment tx.amount X

/-- `Bank.verify_payable`: evaluate (propagating signature failure), then
reject a zero payable amount with `ErrNotPayable`. -/
def Bank.verify_payable (ev : EvalOracle) (tx : Transaction) (ss rs : Sig) :
    Except Err Int :=
  match ev tx ss rs with
  | Except.error e => Except.error e
  | Except.ok amount_paid =>
      if amount_paid = 0 then Except.error Err.notPayable
      else Except.ok amount_paid

/-- `Bank.validate_payment`, check for check in source order: payability,
sender existence, interval overlap (`AlreadyProcessed` on componentwise
equality, else `DoubleSpend`), coin-range validity, funds. Pure: the source
method only reads the ledger. -/
def Bank.validate_payment (b : Bank) (ev : EvalOracle) (tx : Transaction)
    (ss rs : Sig) : Except Err Int :=
  match Bank.verify_payable ev tx ss rs with
  | Except.error e => Except.error e
  | Except.ok amount_paid =>
    match dictFind b.users tx.sender_key with
    | none => Except.error Err.unknownSender
    | some sender =>
      match b.find_shared_sn_subrange tx with
      | some intersect_tx =>
          if tx = intersect_tx then Except.error Err.alreadyProcessed
          else Except.error Err.doubleSpend
      | none =>
          if tx.sn - tx.amount < 0 ∨ tx.sn > sender.total_received then
            Except.error Err.invalidCoinInterval
          else if sender.balance < amount_paid then
            Except.error Err.notEnoughFunds
          else Except.ok amount_paid

/-- `Bank.process_payment`: validate, then commit (debit sender and store
the check, credit receiver) and return `True`. An error from validation
aborts before any write, so the pre-state is returned with it. -/
def Bank.process_payment (b : Bank) (ev : EvalOracle) (tx : Transaction)
    (ss rs : Sig) : Bank × Except Err Bool :=
  match b.validate_payment ev tx ss rs with
  | Except.error e => (b, Except.error e)
  | Except.ok amount_paid =>
      ((b.subtract_balance tx amount_paid ss rs).add_balance
          tx.receiver_key amount_paid,
        Except.ok true)

/-- `Bank.report_double_spend`: evaluate both checks (a signature failure
propagates), then raise `ErrDoubleSpend` when the two differ, share the
sender and their intervals intersect; otherwise return `None`. The method
never writes the ledger, so every arm carries the pre-state. -/
def Bank.report_double_spend (b : Bank) (ev : EvalOracle)
    (tx1 : Transaction) (ss1 rs1 : Sig)
    (tx2 : Transaction) (ss2 rs2 : Sig) : Bank × Except Err Unit :=
  match ev tx1 ss1 rs1 with
  | Except.error e => (b, Except.error e)
  | Except.ok _ =>
    match ev tx2 ss2 rs2 with
    | Except.error e => (b, Except.error e)
    | Except.ok _ =>
        if tx1 ≠ tx2 ∧ tx1.sender_key = tx2.sender_key ∧
            Bank.intersection_exists tx1 tx2 = true then
          (b, Except.error Err.doubleSpend)
        else (b, Except.ok ())

/-! Derived notions the claims quantify over. -/

/-- Membership in the coin interval `(sn - amount, sn]` of a check. -/
def inCoinInterval (t : Transaction) (x : Int) : Prop :=
  t.sn - t.amount < x ∧ x ≤ t.sn

/-- Two checks' coin intervals share an element. -/
def overlaps (t1 t2 : Transaction) : Prop :=
  ∃ x : Int, inCoinInterval t1 x ∧ inCoinInterval t2 x

/-- The intervals of the checks stored in one history are pairwise
disjoint. -/
def histDisjoint (hist : List (Int × HistEntry)) : Prop :=
  hist.Pairwise fun e1 e2 => ¬ overlaps e1.2.tx e2.2.tx

/-- Interval disjointness of every user's stored history. -/
def Bank.DisjointInv (b : Bank) : Prop :=
  ∀ k u, dictFind b.users k = some u → histDisjoint u.history

/-- Every user's balance is non-negative. -/
def Bank.NonnegInv (b : Bank) : Prop :=
  ∀ k u, dictFind b.users k = some u → 0 ≤ u.balance

/-! Helper lemmas: the dictionary model. -/

theorem dictInsert_cons_self {α β : Type} [DecidableEq α]
    (a : α) (b v : β) (tl : List (α × β)) :
    dictInsert ((a, b) :: tl) a v = (a, v) :: tl := by
  simp [dictInsert]

theorem dictInsert_cons_ne {α β : Type} [DecidableEq α]
    {a k : α} (h : a ≠ k) (b v : β) (tl : List (α × β)) :
    dictInsert ((a, b) :: tl) k v = (a, b) :: dictInsert tl k v := by
  simp [dictInsert, h]

theorem dictFind_dictInsert_self {α β : Type} [DecidableEq α]
    (l : List (α × β)) (k : α) (v : β) :
    dictFind (dictInsert l k v) k = some v := by
  induction l with
  | nil => simp [dictInsert, dictFind]
  | cons hd tl ih =>
      obtain ⟨a, b⟩ := hd
      by_cases hak : a = k <;> simp [dictInsert, dictFind, hak, ih]

theorem dictFind_dictInsert_ne {α β : Type} [DecidableEq α]
    (l : List (α × β)) (k k' : α) (v : β) (h : k' ≠ k) :
    dictFind (dictInsert l k v) k' = dictFind l k' := by
  induction l with
  | nil => simp [dictInsert, dictFind, Ne.symm h]
  | cons hd tl ih =>
      obtain ⟨a, b⟩ := hd
      by_cases hak : a = k
      · subst hak
        have hka : ¬a = k' := fun hh => h hh.symm
        simp [dictInsert, dictFind, hka]
      · simp [dictInsert, dictFind, hak, ih]

theorem mem_dictInsert {α β : Type} [DecidableEq α]
    {l : List (α × β)} {k : α} {v : β} {e : α × β}
    (h : e ∈ dictInsert l k v) : e = (k, v) ∨ e ∈ l := by
  induction l with
  | nil =>
      simp only [dictInsert, List.mem_singleton] at h
      exact Or.inl h
  | cons hd tl ih =>
      obtain ⟨a, b⟩ := hd
      by_cases hak : a = k
      · subst hak
        rw [dictInsert_cons_self, List.mem_cons] at h
        rcases h with h1 | h1
        · exact Or.inl h1
        · exact Or.inr (List.mem_cons_of_mem _ h1)
      · rw [dictInsert_cons_ne hak, List.mem_cons] at h
        rcases h with h1 | h1
        · exact Or.inr (List.mem_cons.mpr (Or.inl h1))
        · rcases ih h1 with h2 | h2
          · exact Or.inl h2
          · exact Or.inr (List.mem_cons_of_mem _ h2)

theorem pairwise_dictInsert {α β : Type} [DecidableEq α]
    {R : (α × β) → (α × β) → Prop} {l : List (α × β)} {k : α} {v : β}
    (hl : l.Pairwise R) (h1 : ∀ e ∈ l, R (k, v) e) (h2 : ∀ e ∈ l, R e (k, v)) :
    (dictInsert l k v).Pairwise R := by
  induction l with
  | nil => simp [dictInsert]
  | cons hd tl ih =>
      obtain ⟨a, b⟩ := hd
      rw [List.pairwise_cons] at hl
      by_cases hak : a = k
      · subst hak
        rw [dictInsert_cons_self]
        refine List.Pairwise.cons ?_ hl.2
        intro e he
        exact h1 e (List.mem_cons_of_mem _ he)
      · rw [dictInsert_cons_ne hak]
        refine List.Pairwise.cons ?_ ?_
        · intro e he
          rcases mem_dictInsert he with rfl | he
          · exact h2 (a, b) (List.mem_cons_self _ _)
          · exact hl.1 e he
        · exact ih hl.2 (fun e he => h1 e (List.mem_cons_of_mem _ he))
            (fun e he => h2 e (List.mem_cons_of_mem _ he))

/-! Helper lemmas: interval intersection. -/

theorem overlaps_symm {t1 t2 : Transaction} (h : overlaps t1 t2) :
    overlaps t2 t1 := by
  obtain ⟨x, hx1, hx2⟩ := h
  exact ⟨x, hx2, hx1⟩

theorem intersection_exists_of_overlaps {t1 t2 : Transaction}
    (h : overlaps t1 t2) : Bank.intersection_exists t1 t2 = true := by
  obtain ⟨x, ⟨ha, hb⟩, hc, hd⟩ := h
  simp only [Bank.intersection_exists]
  split <;> (simp only [decide_eq_true_eq]; omega)

theorem overlaps_of_intersection_exists {t1 t2 : Transaction}
    (h1 : t1.valid) (h2 : t2.valid)
    (h : Bank.intersection_exists t1 t2 = true) : overlaps t1 t2 := by
  obtain ⟨hs1, ha1, hsa1⟩ := h1
  obtain ⟨hs2, ha2, hsa2⟩ := h2
  simp only [Bank.intersection_exists] at h
  split at h <;> simp only [decide_eq_true_eq] at h
  · exact ⟨t2.sn - t2.amount + 1, ⟨by omega, by omega⟩, by omega, by omega⟩
  · exact ⟨t1.sn - t1.amount + 1, ⟨by omega, by omega⟩, by omega, by omega⟩

theorem findSharedHist_eq_none {hist : List (Int × HistEntry)}
    {tx : Transaction} (h : findSharedHist hist tx = none) :
    ∀ e ∈ hist, Bank.intersection_exists tx e.2.tx = false := by
  induction hist with
  | nil => intro e he; simp at he
  | cons hd tl ih =>
      obtain ⟨sn, e0⟩ := hd
      intro e he
      simp only [findSharedHist] at h
      by_cases hi : Bank.intersection_exists tx e0.tx
      · simp [hi] at h
      · rcases List.mem_cons.mp he with rfl | he
        · simpa using hi
        · exact ih (by simpa [hi] using h) e he

/-! Helper lemmas: the bank's primitive updates. -/

theorem dictFind_ensure_user_exists (b : Bank) (k k' : Key) :
    dictFind (b.ensure_user_exists k).users k' =
      if k' = k then some ((dictFind b.users k).getD UserRecord.new)
      else dictFind b.users k' := by
  unfold Bank.ensure_user_exists
  cases hf : dictFind b.users k with
  | some u =>
      by_cases h : k' = k
      · subst h; simp [hf]
      · simp [h]
  | none =>
      by_cases h : k' = k
      · subst h; simp [hf, dictFind_dictInsert_self]
      · simp [h, dictFind_dictInsert_ne _ _ _ _ h]

theorem dictFind_add_balance (b : Bank) (k : Key) (amount : Int) (k' : Key) :
    dictFind (b.add_balance k amount).users k' =
      (if k' = k then
        some
          { total_received :=
              ((dictFind b.users k).getD UserRecord.new).total_received + amount,
            balance := ((dictFind b.users k).getD UserRecord.new).balance + amount,
            history := ((dictFind b.users k).getD UserRecord.new).history }
      else dictFind b.users k') := by
  unfold Bank.add_balance
  have he := dictFind_ensure_user_exists b k k
  rw [if_pos rfl] at he
  dsimp only
  rw [he]
  by_cases h : k' = k
  · subst h; simp [dictFind_dictInsert_self]
  · rw [if_neg h, dictFind_dictInsert_ne _ _ _ _ h,
      dictFind_ensure_user_exists, if_neg h]

theorem dictFind_subtract_balance {b : Bank} {tx : Transaction}
    {u : UserRecord} (hu : dictFind b.users tx.sender_key = some u)
    (n : Int) (ss rs : Sig) (k' : Key) :
    dictFind (b.subtract_balance tx n ss rs).users k' =
      (if k' = tx.sender_key then
        some
          { u with
            balance := u.balance - n,
            history := dictInsert u.history tx.sn ⟨tx, ss, rs⟩ }
      else dictFind b.users k') := by
  unfold Bank.subtract_balance
  rw [hu]
  by_cases h : k' = tx.sender_key
  · subst h; simp [dictFind_dictInsert_self]
  · simp [h, dictFind_dictInsert_ne _ _ _ _ h]

/-! Helper lemmas: inverting successful validation. -/

theorem verify_payable_ok {ev : EvalOracle} {tx : Transaction} {ss rs : Sig}
    {n : Int} (h : Bank.verify_payable ev tx ss rs = Except.ok n) :
    ev tx ss rs = Except.ok n ∧ n ≠ 0 := by
  unfold Bank.verify_payable at h
  split at h
  · exact absurd h (by simp)
  next m he =>
    split at h
    · exact absurd h (by simp)
    next hm =>
      obtain rfl : m = n := by injection h
      exact ⟨he, hm⟩

theorem validate_payment_ok {b : Bank} {ev : EvalOracle} {tx : Transaction}
    {ss rs : Sig} {n : Int}
    (h : b.validate_payment ev tx ss rs = Except.ok n) :
    ev tx ss rs = Except.ok n ∧ n ≠ 0 ∧
    ∃ u, dictFind b.users tx.sender_key = some u ∧
      findSharedHist u.history tx = none ∧
      ¬(tx.sn - tx.amount < 0 ∨ tx.sn > u.total_received) ∧
      ¬(u.balance < n) := by
  unfold Bank.validate_payment at h
  split at h
  · exact absurd h (by simp)
  next amount_paid hvp =>
    split at h
    · exact absurd h (by simp)
    next sender hs =>
      split at h
      · split at h <;> exact absurd h (by simp)
      next hnone =>
        split at h
        · exact absurd h (by simp)
        next hrange =>
          split at h
          · exact absurd h (by simp)
          next hbal =>
            obtain rfl : amount_paid = n := by injection h
            obtain ⟨hev, hn0⟩ := verify_payable_ok hvp
            refine ⟨hev, hn0, sender, hs, ?_, hrange, hbal⟩
            unfold Bank.find_shared_sn_subrange at hnone
            rw [hs] at hnone
            exact hnone

/-! Helper lemmas: frame facts used by the state-machine inductions. -/

theorem report_double_spend_fst (b : Bank) (ev : EvalOracle)
    (tx1 : Transaction) (ss1 rs1 : Sig) (tx2 : Transaction) (ss2 rs2 : Sig) :
    (b.report_double_spend ev tx1 ss1 rs1 tx2 ss2 rs2).1 = b := by
  unfold Bank.report_double_spend
  cases ev tx1 ss1 rs1 with
  | error e => rfl
  | ok m1 =>
      cases ev tx2 ss2 rs2 with
      | error e => rfl
      | ok m2 => dsimp only; split <;> rfl

/-! The bank as a state machine. -/

/-- One API call against the bank. `P` constrains deposited amounts (the
claims quantify over sequences with and without a positivity restriction).
Transactions handed to the bank were necessarily built by
`Transaction.__init__`, hence satisfy the construction invariant; a
successful oracle answer is something `Transaction.evaluate` can return. -/
inductive Step (P : Int → Prop) : Bank → Bank → Prop where
  | deposit (b : Bank) (k : Key) (amount : Int) (hP : P amount) :
      Step P b (b.deposit k amount)
  | process (b : Bank) (ev : EvalOracle) (tx : Transaction) (ss rs : Sig)
      (hv : tx.valid) (hev : EvalOracle.consistent_at ev tx ss rs) :
      Step P b (b.process_payment ev tx ss rs).1
  | report (b : Bank) (ev : EvalOracle) (tx1 : Transaction) (ss1 rs1 : Sig)
      (tx2 : Transaction) (ss2 rs2 : Sig) :
      Step P b (b.report_double_spend ev tx1 ss1 rs1 tx2 ss2 rs2).1

/-- Bank states reachable from `Bank()` by a sequence of calls, successful
or failing (a failing call keeps the state). -/
inductive Reachable (P : Int → Prop) : Bank → Prop where
  | base : Reachable P Bank.init
  | step {b b' : Bank} : Reachable P b → Step P b b' → Reachable P b'

/-! Helper lemmas: preservation of the two ledger invariants. -/

theorem disjointInv_add_balance {b : Bank} (h : b.DisjointInv)
    (k : Key) (amount : Int) : (b.add_balance k amount).DisjointInv := by
  intro k' u hu
  rw [dictFind_add_balance] at hu
  by_cases hk : k' = k
  · rw [if_pos hk] at hu
    obtain rfl := (Option.some.injEq _ _).mp hu
    cases hf : dictFind b.users k with
    | none => simp [hf, UserRecord.new, histDisjoint]
    | some u0 => simpa [hf] using h k u0 hf
  · rw [if_neg hk] at hu
    exact h k' u hu

theorem nonnegInv_add_balance {b : Bank} (h : b.NonnegInv)
    {amount : Int} (ha : 0 ≤ amount) (k : Key) :
    (b.add_balance k amount).NonnegInv := by
  intro k' u hu
  rw [dictFind_add_balance] at hu
  by_cases hk : k' = k
  · rw [if_pos hk] at hu
    obtain rfl := (Option.some.injEq _ _).mp hu
    cases hf : dictFind b.users k with
    | none => simp [hf, UserRecord.new]; omega
    | some u0 =>
        have h0 := h k u0 hf
        simp [hf]
        omega
  · rw [if_neg hk] at hu
    exact h k' u hu

theorem disjointInv_subtract_balance {b : Bank} (h : b.DisjointInv)
    {tx : Transaction} {u : UserRecord}
    (hu : dictFind b.users tx.sender_key = some u)
    (hfs : findSharedHist u.history tx = none) (n : Int) (ss rs : Sig) :
    (b.subtract_balance tx n ss rs).DisjointInv := by
  intro k' w hw
  rw [dictFind_subtract_balance hu] at hw
  by_cases hk : k' = tx.sender_key
  · rw [if_pos hk] at hw
    obtain rfl := (Option.some.injEq _ _).mp hw
    have hbase := h tx.sender_key u hu
    have hnone := findSharedHist_eq_none hfs
    refine pairwise_dictInsert hbase ?_ ?_
    · intro e he hov
      have hfalse := hnone e he
      rw [intersection_exists_of_overlaps hov] at hfalse
      exact absurd hfalse (by simp)
    · intro e he hov
      have hfalse := hnone e he
      rw [intersection_exists_of_overlaps (overlaps_symm hov)] at hfalse
      exact absurd hfalse (by simp)
  · rw [if_neg hk] at hw
    exact h k' w hw

theorem nonnegInv_subtract_balance {b : Bank} (h : b.NonnegInv)
    {tx : Transaction} {u : UserRecord} {n : Int}
    (hu : dictFind b.users tx.sender_key = some u)
    (hbal : ¬u.balance < n) (ss rs : Sig) :
    (b.subtract_balance tx n ss rs).NonnegInv := by
  intro k' w hw
  rw [dictFind_subtract_balance hu] at hw
  by_cases hk : k' = tx.sender_key
  · rw [if_pos hk] at hw
    obtain rfl := (Option.some.injEq _ _).mp hw
    dsimp only
    omega
  · rw [if_neg hk] at hw
    exact h k' w hw

theorem calculate_payment_nonneg {amount : Int} (h : 0 < amount) (X : Int) :
    0 ≤ calculate_payment amount X := by
  unfold calculate_payment
  have h1 : 0 ≤ Int.fdiv amount MP :=
    Int.fdiv_nonneg (le_of_lt h) (by norm_num [MP])
  have h2 : (0 : Int) < MP := by norm_num [MP]
  dsimp only
  split <;> nlinarith

theorem disjointInv_process {b : Bank} (h : b.DisjointInv)
    (ev : EvalOracle) (tx : Transaction) (ss rs : Sig) :
    (b.process_payment ev tx ss rs).1.DisjointInv := by
  unfold Bank.process_payment
  cases hval : b.validate_payment ev tx ss rs with
  | error e => exact h
  | ok n =>
      obtain ⟨hevok, hn0, u, hu, hfs, hrange, hbal⟩ := validate_payment_ok hval
      exact disjointInv_add_balance
        (disjointInv_subtract_balance h hu hfs n ss rs) _ _

theorem nonnegInv_process {b : Bank} (h : b.NonnegInv)
    {ev : EvalOracle} {tx : Transaction} {ss rs : Sig}
    (hv : tx.valid) (hev : EvalOracle.consistent_at ev tx ss rs) :
    (b.process_payment ev tx ss rs).1.NonnegInv := by
  unfold Bank.process_payment
  cases hval : b.validate_payment ev tx ss rs with
  | error e => exact h
  | ok n =>
      obtain ⟨hevok, hn0, u, hu, hfs, hrange, hbal⟩ := validate_payment_ok hval
      obtain ⟨X, hX0, hX1, rfl⟩ := hev n hevok
      exact nonnegInv_add_balance
        (nonnegInv_subtract_balance h hu hbal ss rs)
        (calculate_payment_nonneg hv.2.1 X) _

/-! Helper lemmas: the invariants hold in every reachable state. -/

theorem reachable_disjointInv {P : Int → Prop} {b : Bank}
    (h : Reachable P b) : b.DisjointInv := by
  induction h with
  | base =>
      intro k u hu
      simp [Bank.init, dictFind] at hu
  | step hr hs ih =>
      cases hs with
      | deposit k amount hP => exact disjointInv_add_balance ih k amount
      | process ev tx ss rs hv hev => exact disjointInv_process ih ev tx ss rs
      | report ev tx1 ss1 rs1 tx2 ss2 rs2 =>
          rw [report_double_spend_fst]
          exact ih

theorem reachable_nonnegInv {P : Int → Prop} (hP : ∀ a, P a → 0 ≤ a)
    {b : Bank} (h : Reachable P b) : b.NonnegInv := by
  induction h with
  | base =>
      intro k u hu
      simp [Bank.init, dictFind] at hu
  | step hr hs ih =>
      cases hs with
      | deposit k amount hd => exact nonnegInv_add_balance ih (hP amount hd) k
      | process ev tx ss rs hv hev => exact nonnegInv_process ih hv hev
      | report ev tx1 ss1 rs1 tx2 ss2 rs2 =>
          rw [report_double_spend_fst]
          exact ih

/-! Concrete data for witnesses and counterexamples. -/

set_option maxRecDepth 8000

/-- A concrete one-coin check. -/
def txA : Transaction := ⟨1, 1, "s", "r", 0⟩

/-- A concrete check over coins 4..7. -/
def txC : Transaction := ⟨7, 4, "a", "b", 0⟩

/-- A concrete check over coins 4..5. -/
def txD : Transaction := ⟨5, 2, "c", "d", 1⟩

/-- An oracle whose evaluation always reports a zero payable amount. -/
def evalZero : EvalOracle := fun _ _ _ => Except.ok 0

/-- An oracle whose evaluation always reports ten coins payable. -/
def evalTen : EvalOracle := fun _ _ _ => Except.ok 10

/-- Ten coins payable is what `evaluate` returns on a one-coin check whose
receiver beta reads as `0` (a lottery hit). -/
theorem evalTen_consistent : EvalOracle.consistent_at evalTen txA 0 0 := by
  intro n hn
  refine ⟨0, by decide, by decide, ?_⟩
  have h10 : (10 : Int) = n := by injection hn
  rw [← h10]
  decide

/-- The bank after a deposit of 15 to the payer of `txA`. -/
def bankA : Bank := Bank.init.deposit "s" 15

/-- The bank after that deposit and one processed payment of `txA`. -/
def bankB : Bank := (bankA.process_payment evalTen txA 0 0).1

/-! The claims. -/

/-- C1: `process_payment` is all-or-nothing: whenever it returns an error
(of any kind, a signature failure from the evaluation oracle included), the
returned bank state — the whole `users` mapping with every balance,
total_received and history — is the pre-call state. -/
theorem process_payment_all_or_nothing (ev : EvalOracle) (b : Bank)
    (tx : Transaction) (ss rs : Sig) (b' : Bank) (e : Err)
    (h : b.process_payment ev tx ss rs = (b', Except.error e)) : b' = b := by
  unfold Bank.process_payment at h
  split at h
  · exact (((Prod.mk.injEq _ _ _ _).mp h).1).symm
  · have h2 := ((Prod.mk.injEq _ _ _ _).mp h).2
    exact absurd h2 (by simp)

/-- Witness for C1 at a concrete input: a not-payable check against the
empty bank errors and the state comes back unchanged. -/
theorem process_payment_all_or_nothing_witness :
    Bank.process_payment Bank.init evalZero txA 0 0 =
      (Bank.init, Except.error Err.notPayable) ∧ Bank.init = Bank.init :=
  ⟨rfl, process_payment_all_or_nothing evalZero Bank.init txA 0 0 Bank.init
    Err.notPayable rfl⟩

/-- C3 counterexample: the source's `deposit` validates nothing — a deposit
of `-5` on the empty bank raises no error, creates the record and credits
both fields by `-5`, so the claim that a non-positive amount fails with a
domain error and leaves balances unchanged is false. -/
theorem deposit_negative_no_error_cex :
    dictFind (Bank.init.deposit "a" (-5)).users "a" =
      some { total_received := -5, balance := -5, history := [] } ∧
    (Bank.init.deposit "a" (-5)).user_balance "a" = -5 ∧ ¬(0 : Int) ≤ -5 :=
  ⟨rfl, rfl, by decide⟩

/-- C3 (amended): `deposit(user_key, amount)` performs no positivity check:
for every integer amount (non-positive ones included) it returns without
error, credits both `balance` and `total_received` of `user_key` by
`amount` — creating the `UserRecord` if absent — and leaves every other
user untouched. -/
theorem deposit_credits_unconditionally (b : Bank) (k : Key) (amount : Int) :
    dictFind (b.deposit k amount).users k =
      some
        { total_received :=
            ((dictFind b.users k).getD UserRecord.new).total_received + amount,
          balance := ((dictFind b.users k).getD UserRecord.new).balance + amount,
          history := ((dictFind b.users k).getD UserRecord.new).history }
    ∧ ∀ k', k' ≠ k → dictFind (b.deposit k amount).users k' = dictFind b.users k' := by
  constructor
  · unfold Bank.deposit
    rw [dictFind_add_balance, if_pos rfl]
  · intro k' hk
    unfold Bank.deposit
    rw [dictFind_add_balance, if_neg hk]

/-- C7: `intersection_exists` decides exactly the intersection of the two
coin intervals: it returns `True` iff `max(lo_1, lo_2) ≤ min(hi_1, hi_2)`
(with `lo_i = sn_i - amount_i + 1`, `hi_i = sn_i`), iff the half-open
integer intervals `(sn_i - amount_i, sn_i]` share an element. -/
theorem intersection_exists_correct (tx1 tx2 : Transaction)
    (h1 : tx1.valid) (h2 : tx2.valid) :
    (Bank.intersection_exists tx1 tx2 = true ↔
      max (tx1.sn - tx1.amount + 1) (tx2.sn - tx2.amount + 1) ≤
        min tx1.sn tx2.sn)
    ∧ (Bank.intersection_exists tx1 tx2 = true ↔ overlaps tx1 tx2) := by
  obtain ⟨hs1, ha1, hsa1⟩ := h1
  obtain ⟨hs2, ha2, hsa2⟩ := h2
  constructor
  · simp only [Bank.intersection_exists, max_le_iff, le_min_iff]
    split <;>
      · simp only [decide_eq_true_eq]
        constructor <;> (intro h; omega)
  · constructor
    · intro h
      exact overlaps_of_intersection_exists ⟨hs1, ha1, hsa1⟩
        ⟨hs2, ha2, hsa2⟩ h
    · intro h
      exact intersection_exists_of_overlaps h

/-- Witness for C7 at concrete checks over coins 4..7 and 4..5. -/
theorem intersection_exists_correct_witness :
    (Bank.intersection_exists txC txD = true ↔
      max (txC.sn - txC.amount + 1) (txD.sn - txD.amount + 1) ≤
        min txC.sn txD.sn)
    ∧ (Bank.intersection_exists txC txD = true ↔ overlaps txC txD) :=
  intersection_exists_correct txC txD ⟨by decide, by decide, by decide⟩
    ⟨by decide, by decide, by decide⟩

/-- C8: a successfully constructed Transaction satisfies `sn ≥ 1`,
`amount ≥ 1`, `sn ≥ amount`, so `tx.sn - tx.amount < 0` is never true and
the `InvalidCoinInterval` condition in `validate_payment` collapses to its
`tx.sn > total_received` arm. -/
theorem constructed_tx_no_underflow (sn amount : Int) (sk rk : Key)
    (ts : Int) (tx : Transaction)
    (h : Transaction.init sn amount sk rk ts = some tx) :
    tx.valid ∧ ¬tx.sn - tx.amount < 0 ∧
    ∀ tr : Int, ((tx.sn - tx.amount < 0 ∨ tx.sn > tr) ↔ tx.sn > tr) := by
  unfold Transaction.init at h
  split at h
  next hc =>
    obtain rfl : (⟨sn, amount, sk, rk, ts⟩ : Transaction) = tx := by injection h
    obtain ⟨hc1, hc2, hc3⟩ := hc
    refine ⟨⟨hc1, hc2, hc3⟩, by dsimp only; omega, ?_⟩
    intro tr
    constructor
    · intro hor
      rcases hor with hlt | hgt
      · dsimp only at hlt; omega
      · exact hgt
    · intro hgt
      exact Or.inr hgt
  next hc => exact absurd h (by simp)

/-- Witness for C8 at the concrete construction of `txA`. -/
theorem constructed_tx_no_underflow_witness :
    txA.valid ∧ ¬txA.sn - txA.amount < 0 ∧
    ∀ tr : Int, ((txA.sn - txA.amount < 0 ∨ txA.sn > tr) ↔ txA.sn > tr) :=
  constructed_tx_no_underflow 1 1 "s" "r" 0 txA rfl

/-- C9: `user_balance` returns `0` for a key with no record rather than
failing, and the record's `balance` field for a key with one. -/
theorem user_balance_absent_zero (b : Bank) (k : Key) :
    (dictFind b.users k = none → b.user_balance k = 0)
    ∧ ∀ u, dictFind b.users k = some u → b.user_balance k = u.balance := by
  constructor
  · intro h
    unfold Bank.user_balance
    rw [h]
  · intro u h
    unfold Bank.user_balance
    rw [h]

/-- C10: `report_double_spend` never modifies bank state: whatever the two
checks, their signatures and the outcome (no fraud shown, `DoubleSpend`
raised, or a signature failure from evaluation), the `users` mapping is the
pre-call one. -/
theorem report_double_spend_preserves_state (b : Bank) (ev : EvalOracle)
    (tx1 : Transaction) (ss1 rs1 : Sig) (tx2 : Transaction) (ss2 rs2 : Sig) :
    (b.report_double_spend ev tx1 ss1 rs1 tx2 ss2 rs2).1 = b :=
  report_double_spend_fst b ev tx1 ss1 rs1 tx2 ss2 rs2

/-- Unfolding of `calculate_payment` with floor division turned into
Euclidean division (the two agree since the divisor 10 is positive). -/
theorem calculate_payment_eq (amount X : Int) :
    calculate_payment amount X =
      if X < difficulty_target (amount % 10) then amount / 10 * 10 + 10
      else amount / 10 * 10 := by
  show (if X < difficulty_target (Int.emod amount MP)
      then Int.fdiv amount MP * MP + MP else Int.fdiv amount MP * MP) = _
  rw [Int.fdiv_eq_ediv _ (by norm_num [MP] : (0 : Int) ≤ MP)]
  rfl

/-- C2 counterexample: at `amount = 1` and the 512-bit attempt value
`X = (2^512 + 4) / 10` (the least integer at or above the exact threshold
`1 * 2^512 / 10`), the spec's exact-threshold formula pays nothing, but the
code pays `10`: the float `1 / 10.0` rounds up, so the code's threshold
exceeds the exact one. -/
theorem calculate_payment_exact_threshold_cex :
    0 ≤ ((2 ^ 512 + 4) / 10 : Int) ∧ ((2 ^ 512 + 4) / 10 : Int) < 2 ^ 512 ∧
    calculate_payment 1 ((2 ^ 512 + 4) / 10) = 10 ∧
    spec_calculate_payment 1 ((2 ^ 512 + 4) / 10) = 0 :=
  ⟨by decide, by decide, by decide, by decide⟩

/-- C2 (amended): for every `amount ≥ 1` and 512-bit attempt value `X`, the
payable amount is `(amount // M) * M`, plus an extra `M` exactly when
`X < difficulty_target (amount mod M)` — `2^512` times the IEEE-754
binary64 rounding of `(amount mod M) / M`, not the exact rational
threshold; the comparison is strict (at `X` equal to the threshold no extra
`M` is paid), and when `amount mod M = 0` the result is `amount` for every
`X`. -/
theorem calculate_payment_binary64_threshold (amount X : Int)
    (h1 : 1 ≤ amount) (h0 : 0 ≤ X) (hX : X < 2 ^ 512) :
    (calculate_payment amount X = Int.fdiv amount MP * MP + MP ↔
      X < difficulty_target (Int.emod amount MP))
    ∧ (calculate_payment amount X = Int.fdiv amount MP * MP ↔
      ¬X < difficulty_target (Int.emod amount MP))
    ∧ (Int.emod amount MP = 0 → calculate_payment amount X = amount)
    ∧ calculate_payment amount (difficulty_target (Int.emod amount MP)) =
        Int.fdiv amount MP * MP := by
  have hdv : Int.fdiv amount MP = amount / 10 :=
    Int.fdiv_eq_ediv _ (by norm_num [MP])
  have hem : Int.emod amount MP = amount % 10 := rfl
  have hMP : MP = (10 : Int) := rfl
  rw [calculate_payment_eq, calculate_payment_eq, hdv, hem, hMP]
  refine ⟨?_, ?_, ?_, ?_⟩
  · by_cases hlt : X < difficulty_target (amount % 10)
    · simp [hlt]
    · simp only [hlt, if_false, iff_false]
      omega
  · by_cases hlt : X < difficulty_target (amount % 10)
    · simp only [hlt, if_true, not_true, iff_false]
      omega
    · simp [hlt]
  · intro hr
    rw [hr]
    rw [show difficulty_target 0 = (0 : Int) from rfl]
    rw [if_neg (by omega : ¬X < (0 : Int))]
    omega
  · rw [if_neg (lt_irrefl _)]

/-- Witness for C2 at `amount = 1`, `X = 0`. -/
theorem calculate_payment_binary64_threshold_witness :
    calculate_payment 1 (difficulty_target (Int.emod 1 MP)) =
      Int.fdiv 1 MP * MP :=
  (calculate_payment_binary64_threshold 1 0 (by decide) (by decide)
    (by decide)).2.2.2

/-- C4 counterexample: starting from the empty bank, the single call
`deposit("a", -1)` returns successfully (the source's `deposit` cannot
raise), yet leaves the user with balance `-1 < 0`. -/
theorem negative_deposit_negative_balance_cex :
    Reachable (fun _ => True) (Bank.init.deposit "a" (-1)) ∧
    (Bank.init.deposit "a" (-1)).user_balance "a" = -1 ∧ ¬(0 : Int) ≤ -1 :=
  ⟨Reachable.step Reachable.base (Step.deposit Bank.init "a" (-1) trivial),
    rfl, by decide⟩

/-- C4 (amended): starting from the empty bank, after any sequence of
deposit (restricted to positive amounts), `process_payment` and
`report_double_spend` calls — which in particular covers every sequence of
successful such calls — every user's balance is non-negative. -/
theorem pos_deposits_balance_nonneg (b : Bank) (k : Key)
    (h : Reachable (fun a => 0 < a) b) : 0 ≤ b.user_balance k := by
  have hinv := reachable_nonnegInv (fun a ha => le_of_lt ha) h
  unfold Bank.user_balance
  cases hf : dictFind b.users k with
  | none => simp
  | some u => exact hinv k u hf

/-- Witness for C4: the bank after one deposit of 5 coins. -/
theorem pos_deposits_balance_nonneg_witness :
    0 ≤ (Bank.init.deposit "a" 5).user_balance "a" :=
  pos_deposits_balance_nonneg (Bank.init.deposit "a" 5) "a"
    (Reachable.step Reachable.base (Step.deposit Bank.init "a" 5 (by decide)))

/-- C5: in every bank state reachable from the empty bank by any sequence
of deposit, `process_payment` and `report_double_spend` calls (successful
or failing, any deposit amounts), the coin intervals `(sn - amount, sn]` of
the checks stored in any one user's history are pairwise disjoint. -/
theorem reachable_history_disjoint (P : Int → Prop) (b : Bank) (k : Key)
    (u : UserRecord) (h : Reachable P b)
    (hu : dictFind b.users k = some u) : histDisjoint u.history :=
  reachable_disjointInv h k u hu

/-- Witness for C5: a reachable bank whose payer holds one stored check. -/
theorem reachable_history_disjoint_witness :
    histDisjoint [(1, ⟨txA, 0, 0⟩)] :=
  reachable_history_disjoint (fun _ => True) bankB "s"
    { total_received := 15, balance := 5, history := [(1, ⟨txA, 0, 0⟩)] }
    (Reachable.step
      (Reachable.step Reachable.base (Step.deposit Bank.init "s" 15 trivial))
      (Step.process bankA evalTen txA 0 0 (by decide) evalTen_consistent))
    rfl

/-- C6: the checks of `validate_payment` run in source order — payability,
then sender existence, then interval overlap (`AlreadyProcessed` when the
intersecting stored check equals `tx` componentwise, else `DoubleSpend`),
then coin-range validity, then funds; in particular a payable check from a
known sender whose interval intersects a stored check errors with
`AlreadyProcessed`/`DoubleSpend` no matter whether the range or funds
conditions also fail. -/
theorem validate_payment_check_order (b : Bank) (ev : EvalOracle)
    (tx : Transaction) (ss rs : Sig) :
    (∀ e, ev tx ss rs = Except.error e →
      b.validate_payment ev tx ss rs = Except.error e)
    ∧ (ev tx ss rs = Except.ok 0 →
      b.validate_payment ev tx ss rs = Except.error Err.notPayable)
    ∧ (∀ n, ev tx ss rs = Except.ok n → n ≠ 0 →
        dictFind b.users tx.sender_key = none →
        b.validate_payment ev tx ss rs = Except.error Err.unknownSender)
    ∧ (∀ n u prev, ev tx ss rs = Except.ok n → n ≠ 0 →
        dictFind b.users tx.sender_key = some u →
        findSharedHist u.history tx = some prev →
        b.validate_payment ev tx ss rs =
          Except.error
            (if tx = prev then Err.alreadyProcessed else Err.doubleSpend))
    ∧ (∀ n u, ev tx ss rs = Except.ok n → n ≠ 0 →
        dictFind b.users tx.sender_key = some u →
        findSharedHist u.history tx = none →
        (tx.sn - tx.amount < 0 ∨ tx.sn > u.total_received) →
        b.validate_payment ev tx ss rs = Except.error Err.invalidCoinInterval)
    ∧ (∀ n u, ev tx ss rs = Except.ok n → n ≠ 0 →
        dictFind b.users tx.sender_key = some u →
        findSharedHist u.history tx = none →
        ¬(tx.sn - tx.amount < 0 ∨ tx.sn > u.total_received) →
        u.balance < n →
        b.validate_payment ev tx ss rs = Except.error Err.notEnoughFunds)
    ∧ (∀ n u, ev tx ss rs = Except.ok n → n ≠ 0 →
        dictFind b.users tx.sender_key = some u →
        findSharedHist u.history tx = none →
        ¬(tx.sn - tx.amount < 0 ∨ tx.sn > u.total_received) →
        ¬u.balance < n →
        b.validate_payment ev tx ss rs = Except.ok n) := by
  refine ⟨?_, ?_, ?_, ?_, ?_, ?_, ?_⟩
  · intro e he
    simp only [Bank.validate_payment, Bank.verify_payable, he]
  · intro he
    simp [Bank.validate_payment, Bank.verify_payable, he]
  · intro n hok hn hnone
    simp only [Bank.validate_payment, Bank.verify_payable, hok, if_neg hn,
      hnone]
  · intro n u prev hok hn hu hfs
    simp only [Bank.validate_payment, Bank.verify_payable,
      Bank.find_shared_sn_subrange, hok, if_neg hn, hu, hfs]
    split <;> rfl
  · intro n u hok hn hu hfs hcond
    simp only [Bank.validate_payment, Bank.verify_payable,
      Bank.find_shared_sn_subrange, hok, if_neg hn, hu, hfs, if_pos hcond]
  · intro n u hok hn hu hfs hcond hbal
    simp only [Bank.validate_payment, Bank.verify_payable,
      Bank.find_shared_sn_subrange, hok, if_neg hn, hu, hfs, if_neg hcond,
      if_pos hbal]
  · intro n u hok hn hu hfs hcond hbal
    simp only [Bank.validate_payment, Bank.verify_payable,
      Bank.find_shared_sn_subrange, hok, if_neg hn, hu, hfs, if_neg hcond,
      if_neg hbal]

end MR01
